import Mathlib

/-!
Verification of the text-reflow core of the AI Book Reader application
(`parse_pdf_to_structured_blocks` and `group_blocks_into_screens` in
`app.py`), shallowly embedded over `List Char` strings.  Python string
primitives (`strip`, `split`, `splitlines`, `isupper`, and the two regular
expressions of the block segmenter) are modelled for ASCII text, the only
kind the heuristics are written for.
-/

namespace EnglishApp

/-- ASCII whitespace set of Python's `str.strip` / `str.split` / regex `\s`. -/
def pySpace (c : Char) : Bool :=
  c = ' ' || c = '\t' || c = '\n' || c = '\r' || c = '\x0b' || c = '\x0c'

/-- Python `str.strip()`: drop leading and trailing whitespace. -/
def strip (l : List Char) : List Char :=
  ((l.dropWhile pySpace).reverse.dropWhile pySpace).reverse

/-- Accumulator worker for Python `str.split()` with no arguments; `acc`
holds the current in-progress word, reversed. -/
def tokensAux : List Char → List Char → List (List Char)
  | acc, [] => if acc = [] then [] else [acc.reverse]
  | acc, c :: cs =>
    if pySpace c then
      if acc = [] then tokensAux [] cs else acc.reverse :: tokensAux [] cs
    else
      tokensAux (c :: acc) cs

/-- Python `text.split()` with no arguments: whitespace-delimited tokens,
runs of whitespace collapsed, no empty tokens. -/
def tokens (l : List Char) : List (List Char) := tokensAux [] l

/-- Split a character list at newline characters, keeping empty segments;
worker for `splitlines`. -/
def splitOnNl : List Char → List (List Char)
  | [] => [[]]
  | c :: cs =>
    if c = '\n' then [] :: splitOnNl cs
    else
      match splitOnNl cs with
      | [] => [[c]]
      | h :: t => (c :: h) :: t

/-- Python `str.splitlines()`, modelled for texts whose line terminator is
`'\n'` (the only terminator the surrounding app produces): split at
newlines, and drop the final empty segment a trailing newline would
produce.  (Python's extra terminators `\r`, `\v`, … do not occur in the
inputs considered here.) -/
def splitlines (l : List Char) : List (List Char) :=
  if l = [] then []
  else if l.getLast? = some '\n' then (splitOnNl l).dropLast
  else splitOnNl l

/-- Python `str.isupper()` over ASCII: at least one cased character, and
no lower-case cased character (uncased characters are ignored). -/
def isupper (l : List Char) : Bool :=
  l.any (fun c => c.isAlpha) && l.all (fun c => !c.isLower)

/-- `re.match(r'^([•·\-\*]|\d+\.)', line)` (app.py line 136): a leading
bullet marker — one of the characters `•` `·` `-` `*` — or a
decimal-number-dot head such as `1.`. -/
def is_bullet (l : List Char) : Bool :=
  match l with
  | [] => false
  | c :: _ =>
    (c = '•' || c = '·' || c = '-' || c = '*') ||
    (c.isDigit &&
      (match l.dropWhile Char.isDigit with
       | '.' :: _ => true
       | _ => false))

/-- Does the list start with an ASCII letter?  This is the class `[A-Z]`
compiled under `re.IGNORECASE`, which matches lower-case letters too. -/
def headAlpha : List Char → Bool
  | [] => false
  | c :: _ => c.isAlpha

/-- `re.match(r'^(Chapter|Section|\d+\s+[A-Z])', line, re.IGNORECASE)`
(app.py line 137): a case-insensitive `Chapter` or `Section` keyword head,
or a non-empty digit run, a non-empty whitespace run, then one ASCII
letter.  Since the digit, whitespace and letter classes are disjoint, the
greedy `\d+\s+` match is equivalent to taking the maximal digit and
whitespace runs. -/
def matchHeaderPat (l : List Char) : Bool :=
  ((l.take 7).map Char.toLower = ['c','h','a','p','t','e','r']) ||
  ((l.take 7).map Char.toLower = ['s','e','c','t','i','o','n']) ||
  (!(l.takeWhile Char.isDigit).isEmpty &&
   !((l.dropWhile Char.isDigit).takeWhile pySpace).isEmpty &&
   headAlpha ((l.dropWhile Char.isDigit).dropWhile pySpace))

/-- `line.isupper() or re.match(r'^(Chapter|Section|\d+\s+[A-Z])', line,
re.IGNORECASE)` (app.py line 137). -/
def is_header (l : List Char) : Bool :=
  isupper l || matchHeaderPat l

/-- One structured block, `{"type": ..., "text": ...}` in app.py, where
`type` is `"p"`, `"h"` or `"li"`. -/
structure Block where
  type : String
  text : List Char
  deriving DecidableEq, Repr

/-- Loop state of `parse_pdf_to_structured_blocks`: the emitted `blocks`
and the paragraph accumulator `current_text` / `current_type`. -/
structure SegState where
  blocks : List Block
  current_text : List Char
  current_type : String
  deriving DecidableEq, Repr

/-- One iteration of the `for line in lines` loop of
`parse_pdf_to_structured_blocks` (app.py lines 133–154). -/
def segStep (st : SegState) (rawLine : List Char) : SegState :=
  let line := strip rawLine
  if line = [] then st
  else if is_header line || is_bullet line then
    let blocks₁ :=
      if st.current_text = [] then st.blocks
      else st.blocks ++ [⟨st.current_type, st.current_text⟩]
    if is_header line then
      { blocks := blocks₁ ++ [⟨"h", line⟩], current_text := [],
        current_type := st.current_type }
    else
      { blocks := blocks₁ ++ [⟨"li", line⟩], current_text := [],
        current_type := st.current_type }
  else
    if st.current_text = [] then
      { st with current_text := line, current_type := "p" }
    else if st.current_text.getLast? = some '-' then
      { st with current_text := st.current_text.dropLast ++ line }
    else
      { st with current_text := st.current_text ++ ' ' :: line }

/-- The loop of `parse_pdf_to_structured_blocks` run over an explicit line
list, followed by the final flush of the paragraph buffer (app.py lines
130–157). -/
def segmentLines (ls : List (List Char)) : List Block :=
  let st := ls.foldl segStep ⟨[], [], "p"⟩
  if st.current_text = [] then st.blocks
  else st.blocks ++ [⟨st.current_type, st.current_text⟩]

/-- `parse_pdf_to_structured_blocks` (app.py lines 127–157): reflow raw
extracted text into typed blocks. -/
def parse_pdf_to_structured_blocks (text : List Char) : List Block :=
  if text = [] then []
  else segmentLines (splitlines text)

/-- Word count of a block: `len(block["text"].split())` (app.py line 164). -/
def blockWordCount (b : Block) : Nat := (tokens b.text).length

/-- Loop state of `group_blocks_into_screens`. -/
structure GroupState where
  screens : List (List Block)
  current_screen : List Block
  current_word_count : Nat
  deriving DecidableEq, Repr

/-- One iteration of the `for block in blocks` loop of
`group_blocks_into_screens` (app.py lines 163–170). -/
def groupStep (words_per_screen : Int) (st : GroupState) (b : Block) : GroupState :=
  let bwc := blockWordCount b
  if ((st.current_word_count + bwc : Int) > words_per_screen ∧ st.current_word_count > 100) then
    { screens := st.screens ++ [st.current_screen], current_screen := [b],
      current_word_count := bwc }
  else
    { st with current_screen := st.current_screen ++ [b],
              current_word_count := st.current_word_count + bwc }

/-- `group_blocks_into_screens` (app.py lines 159–173): greedy pagination
of the block list under a word-count budget, with the hard-coded
minimum-fill guard `current_word_count > 100`. -/
def group_blocks_into_screens (blocks : List Block) (words_per_screen : Int) : List (List Block) :=
  let st := blocks.foldl (groupStep words_per_screen) ⟨[], [], 0⟩
  if st.current_screen = [] then st.screens
  else st.screens ++ [st.current_screen]

/-- Total word count of a page (sum of its blocks' word counts). -/
def pageWordCount (p : List Block) : Nat := (p.map blockWordCount).sum

example : strip " ab\t ".toList = ['a', 'b'] := by decide

example : tokens "  foo  bar ".toList = [['f','o','o'], ['b','a','r']] := by decide

example : splitlines "a\n\nb\n".toList = [['a'], [], ['b']] := by decide

example : is_bullet "- FIRST".toList = true := by decide

example : is_header "- FIRST".toList = true := by decide

example : is_header "3 apples".toList = true := by decide

example : is_bullet "3 apples".toList = false := by decide

example : parse_pdf_to_structured_blocks "exam-\nple".toList =
    [⟨"p", "example".toList⟩] := by decide

example : parse_pdf_to_structured_blocks "- FIRST".toList =
    [⟨"h", "- FIRST".toList⟩] := by decide

example : parse_pdf_to_structured_blocks "a\n\nb".toList =
    [⟨"p", "a b".toList⟩] := by decide

example : group_blocks_into_screens [] 400 = [] := by decide

/-! ### Helper lemmas -/

/-- A paragraph block consisting of `n` copies of the one-letter word `a`. -/
def wordBlock (n : Nat) : Block :=
  ⟨"p", (List.replicate n ['a', ' ']).flatten⟩

theorem tokens_replicate (n : Nat) :
    tokens ((List.replicate n ['a', ' ']).flatten) = List.replicate n ['a'] := by
  induction n with
  | zero => rfl
  | succ n ih =>
    simpa [List.replicate_succ, tokens, tokensAux, pySpace] using ih

theorem blockWordCount_wordBlock (n : Nat) : blockWordCount (wordBlock n) = n := by
  simp [blockWordCount, wordBlock, tokens_replicate]

theorem groupStep_current_ne (w : Int) (st : GroupState) (b : Block) :
    (groupStep w st b).current_screen ≠ [] := by
  simp only [groupStep]
  split <;> simp

theorem foldl_group_current_ne (w : Int) :
    ∀ (bs : List Block) (st : GroupState), st.current_screen ≠ [] →
      (bs.foldl (groupStep w) st).current_screen ≠ [] := by
  intro bs
  induction bs with
  | nil => intro st h; simpa using h
  | cons b bs ih =>
    intro st _
    rw [List.foldl_cons]
    exact ih (groupStep w st b) (groupStep_current_ne w st b)

/-! ### C1 — bullet vs heading precedence -/

/-- C1, counterexample: the line `"- FIRST"` matches both the bullet
pattern and the heading heuristic, yet `parse_pdf_to_structured_blocks`
emits a heading block (`"h"`), not a list-item block — the code checks
`is_header` first (app.py line 142), so heading wins, contrary to the
claimed bullet precedence. -/
theorem bullet_precedence_cex :
    is_bullet "- FIRST".toList = true ∧ is_header "- FIRST".toList = true ∧
      parse_pdf_to_structured_blocks "- FIRST".toList = [⟨"h", "- FIRST".toList⟩] := by
  decide

/-- C1, amended: for every input line matching both the bullet pattern and
the heading heuristic, the segmenter flushes any pending paragraph and
emits a heading block for the line — heading detection takes precedence
when both heuristics match. -/
theorem both_match_emits_heading (st : SegState) (l : List Char)
    (hb : is_bullet (strip l) = true) (hh : is_header (strip l) = true) :
    (segStep st l).blocks =
      st.blocks ++
        (if st.current_text = [] then [] else [⟨st.current_type, st.current_text⟩]) ++
        [⟨"h", strip l⟩] := by
  have hne : strip l ≠ [] := by
    intro h
    rw [h] at hb
    simp [is_bullet] at hb
  by_cases hc : st.current_text = [] <;>
    simp [segStep, hne, hh, hc]

/-- Witness for `both_match_emits_heading` at the line `"- FIRST"` and the
empty segmenter state. -/
theorem both_match_emits_heading_w :
    (segStep ⟨[], [], "p"⟩ "- FIRST".toList).blocks = [⟨"h", "- FIRST".toList⟩] := by
  have h := both_match_emits_heading ⟨[], [], "p"⟩ "- FIRST".toList (by decide) (by decide)
  rw [h]
  decide

/-! ### C5 — the "number + capitalized word" pattern is case-insensitive -/

/-- C5, counterexample: `"3 apples"` (digits, whitespace, then a
lower-case word) is not a bullet, yet the segmenter classifies it as a
heading, not a paragraph continuation: the regex is compiled with
`re.IGNORECASE` (app.py line 137), so `[A-Z]` also matches `a`. -/
theorem numword_heading_cex :
    is_bullet "3 apples".toList = false ∧
      parse_pdf_to_structured_blocks "3 apples".toList = [⟨"h", "3 apples".toList⟩] := by
  decide

theorem pySpace_cases {c : Char} (h : pySpace c = true) :
    c = ' ' ∨ c = '\t' ∨ c = '\n' ∨ c = '\r' ∨ c = '\x0b' ∨ c = '\x0c' := by
  simp only [pySpace, Bool.or_eq_true, decide_eq_true_eq] at h
  tauto

theorem pySpace_not_digit {c : Char} (h : pySpace c = true) : c.isDigit = false := by
  rcases pySpace_cases h with rfl | rfl | rfl | rfl | rfl | rfl <;> decide

theorem pySpace_not_alpha {c : Char} (h : pySpace c = true) : c.isAlpha = false := by
  rcases pySpace_cases h with rfl | rfl | rfl | rfl | rfl | rfl <;> decide

theorem alpha_not_pySpace {c : Char} (h : c.isAlpha = true) : pySpace c = false := by
  by_contra hc
  rw [Bool.not_eq_false] at hc
  rw [pySpace_not_alpha hc] at h
  exact Bool.false_ne_true h

theorem digit_not_pySpace {c : Char} (h : c.isDigit = true) : pySpace c = false := by
  by_contra hc
  rw [Bool.not_eq_false] at hc
  rw [pySpace_not_digit hc] at h
  exact Bool.false_ne_true h

/-- C5, amended: the "number + word" heading pattern is compiled
case-insensitively, so a line of digits, then whitespace, then *any*
ASCII letter — lower-case included — satisfies the heading heuristic; a
capital letter after the number is not required. -/
theorem digit_space_letter_is_header (ds ws rest : List Char) (c : Char)
    (hds : ds ≠ []) (hd : ∀ x ∈ ds, x.isDigit = true)
    (hws : ws ≠ []) (hw : ∀ x ∈ ws, pySpace x = true)
    (hc : c.isAlpha = true) :
    is_header (ds ++ ws ++ c :: rest) = true := by
  obtain ⟨d₀, ds', rfl⟩ := List.exists_cons_of_ne_nil hds
  obtain ⟨w₀, ws', rfl⟩ := List.exists_cons_of_ne_nil hws
  have hd₀ : d₀.isDigit = true := hd d₀ (by simp)
  have hw₀ : pySpace w₀ = true := hw w₀ (by simp)
  rw [List.append_assoc]
  have hdrop₁ : ((d₀ :: ds') ++ ((w₀ :: ws') ++ c :: rest)).dropWhile Char.isDigit
      = (w₀ :: ws') ++ c :: rest := by
    rw [List.dropWhile_append]
    have h1 : (d₀ :: ds').dropWhile Char.isDigit = [] :=
      List.dropWhile_eq_nil_iff.2 fun x hx => hd x hx
    rw [h1]
    simp [List.dropWhile_cons, pySpace_not_digit hw₀]
  have hdrop₂ : ((w₀ :: ws') ++ c :: rest).dropWhile pySpace = c :: rest := by
    rw [List.dropWhile_append]
    have h1 : (w₀ :: ws').dropWhile pySpace = [] :=
      List.dropWhile_eq_nil_iff.2 fun x hx => hw x hx
    rw [h1]
    simp [List.dropWhile_cons, alpha_not_pySpace hc]
  have ht₁ : ((d₀ :: ds') ++ ((w₀ :: ws') ++ c :: rest)).takeWhile Char.isDigit
      = d₀ :: ((ds' ++ ((w₀ :: ws') ++ c :: rest)).takeWhile Char.isDigit) := by
    rw [List.cons_append]
    exact List.takeWhile_cons_of_pos hd₀
  have ht₂ : ((w₀ :: ws') ++ c :: rest).takeWhile pySpace
      = w₀ :: ((ws' ++ c :: rest).takeWhile pySpace) := by
    rw [List.cons_append]
    exact List.takeWhile_cons_of_pos hw₀
  have hmatch : matchHeaderPat ((d₀ :: ds') ++ ((w₀ :: ws') ++ c :: rest)) = true := by
    unfold matchHeaderPat
    rw [hdrop₁, hdrop₂, ht₁, ht₂]
    simp [headAlpha, hc]
  unfold is_header
  rw [hmatch, Bool.or_true]

/-- Witness for `digit_space_letter_is_header`: the line `"3 apples"`. -/
theorem digit_space_letter_is_header_w :
    is_header "3 apples".toList = true := by
  have h := digit_space_letter_is_header ['3'] [' '] "pples".toList 'a'
    (by decide) (by decide) (by decide) (by decide) (by decide)
  simpa using h

/-! ### C4 — no validation of `words_per_page` -/

/-- C4, counterexample: called with the invalid budget `0`, the grouper
does not fail: it returns a page list (here, one page holding the block),
so the claimed fail-fast rejection does not exist in the code. -/
theorem budget_validation_cex :
    group_blocks_into_screens [⟨"p", ['a']⟩] 0 = [[⟨"p", ['a']⟩]] := by
  decide

/-- C4, amended: `group_blocks_into_screens` performs no validation of
`words_per_page`: called with a zero or negative budget on a non-empty
block list it still returns a (non-empty) page list computed by the same
greedy loop, instead of rejecting the call. -/
theorem no_budget_validation (bs : List Block) (w : Int)
    (_hw : w ≤ 0) (hbs : bs ≠ []) :
    group_blocks_into_screens bs w ≠ [] := by
  obtain ⟨b, bs', rfl⟩ := List.exists_cons_of_ne_nil hbs
  have hcur : ((b :: bs').foldl (groupStep w) ⟨[], [], 0⟩).current_screen ≠ [] := by
    rw [List.foldl_cons]
    exact foldl_group_current_ne w bs' _ (groupStep_current_ne w _ b)
  simp only [group_blocks_into_screens]
  rw [if_neg hcur]
  simp

/-- Witness for `no_budget_validation`: one block, budget `0`. -/
theorem no_budget_validation_w :
    group_blocks_into_screens [⟨"p", ['a']⟩] 0 ≠ [] :=
  no_budget_validation [⟨"p", ['a']⟩] 0 (by decide) (by decide)

/-! ### C6 — hyphenation join -/

/-- C6: on the two input lines `"exam-"` and `"ple"` the segmenter
produces exactly one paragraph block with text `"example"`: the trailing
hyphen of the buffer is removed and the next line is concatenated with no
space (app.py lines 148–149). -/
theorem hyphen_join :
    parse_pdf_to_structured_blocks "exam-\nple".toList = [⟨"p", "example".toList⟩] := by
  decide

/-! ### C2 — the minimum-fill guard is strict -/

set_option maxRecDepth 8000 in
/-- C2, counterexample: with budget 150, a 100-word block followed by a
51-word block stays on a single page even though adding the second block
overflows the budget and the running total (100) equals the claimed
minimum fill: the code requires `current_word_count > 100` strictly
(app.py line 165), so a page holding exactly 100 words is never closed. -/
theorem minimum_fill_strict_cex :
    blockWordCount (wordBlock 100) = 100 ∧ blockWordCount (wordBlock 51) = 51 ∧
      group_blocks_into_screens [wordBlock 100, wordBlock 51] 150 =
        [[wordBlock 100, wordBlock 51]] := by
  decide

/-- C2, amended: the grouper closes the current page before adding a block
exactly when adding that block's word count would exceed the budget AND
the running total so far strictly exceeds 100 (the hard-coded minimum
fill); a running total of exactly 100 does not allow the page to close. -/
theorem page_close_iff (w : Int) (st : GroupState) (b : Block) :
    groupStep w st b =
        ⟨st.screens ++ [st.current_screen], [b], blockWordCount b⟩ ↔
      ((st.current_word_count + blockWordCount b : Int) > w ∧
        st.current_word_count > 100) := by
  constructor
  · intro h
    by_contra hc
    simp only [groupStep] at h
    rw [if_neg hc] at h
    have hs := congrArg GroupState.screens h
    simp at hs
  · intro h
    simp only [groupStep]
    rw [if_pos h]

/-! ### C7 — page reconstruction -/

theorem foldl_group_flatten (w : Int) :
    ∀ (bs : List Block) (st : GroupState),
      (bs.foldl (groupStep w) st).screens.flatten
          ++ (bs.foldl (groupStep w) st).current_screen
        = st.screens.flatten ++ st.current_screen ++ bs := by
  intro bs
  induction bs with
  | nil => intro st; simp
  | cons b bs ih =>
    intro st
    rw [List.foldl_cons, ih]
    simp only [groupStep]
    split
    · simp
    · simp

/-- C7: for every block list and every positive budget, concatenating the
pages produced by the grouper, in order, yields back exactly the input
block list — no block dropped, duplicated or reordered, and every block
lies wholly within one page. -/
theorem page_reconstruction (bs : List Block) (w : Int) (_hw : 0 < w) :
    (group_blocks_into_screens bs w).flatten = bs := by
  have h := foldl_group_flatten w bs ⟨[], [], 0⟩
  simp only [List.flatten_nil, List.nil_append] at h
  simp only [group_blocks_into_screens]
  split
  · rename_i hc
    rw [hc, List.append_nil] at h
    exact h
  · rw [List.flatten_append]
    simpa using h

/-- Witness for `page_reconstruction`: one block, budget 1. -/
theorem page_reconstruction_w :
    (group_blocks_into_screens [⟨"p", ['a']⟩] 1).flatten = [⟨"p", ['a']⟩] :=
  page_reconstruction [⟨"p", ['a']⟩] 1 (by decide)

/-! ### C10 — non-final pages hold more than 100 words -/

theorem groupStep_fill_inv (w : Int) (st : GroupState) (b : Block)
    (h1 : ∀ p ∈ st.screens, 100 < pageWordCount p)
    (h2 : pageWordCount st.current_screen = st.current_word_count) :
    (∀ p ∈ (groupStep w st b).screens, 100 < pageWordCount p) ∧
      pageWordCount (groupStep w st b).current_screen
        = (groupStep w st b).current_word_count := by
  simp only [groupStep]
  split
  · rename_i hcond
    refine ⟨?_, ?_⟩
    · intro p hp
      simp only [List.mem_append, List.mem_singleton] at hp
      rcases hp with hp | rfl
      · exact h1 p hp
      · rw [h2]
        exact hcond.2
    · simp [pageWordCount]
  · refine ⟨h1, ?_⟩
    simp [pageWordCount, ← h2]

theorem foldl_group_fill (w : Int) :
    ∀ (bs : List Block) (st : GroupState),
      (∀ p ∈ st.screens, 100 < pageWordCount p) →
      pageWordCount st.current_screen = st.current_word_count →
      ∀ p ∈ (bs.foldl (groupStep w) st).screens, 100 < pageWordCount p := by
  intro bs
  induction bs with
  | nil => intro st h1 _ p hp; exact h1 p hp
  | cons b bs ih =>
    intro st h1 h2
    rw [List.foldl_cons]
    obtain ⟨h1', h2'⟩ := groupStep_fill_inv w st b h1 h2
    exact ih (groupStep w st b) h1' h2'

/-- C10: for every block list and every budget, every page of the
grouper's output except possibly the last holds strictly more than 100
words — a page is only closed mid-stream when its accumulated word count
exceeds the hard-coded minimum-fill threshold. -/
theorem minimum_fill_invariant (bs : List Block) (w : Int) (p : List Block)
    (hp : p ∈ (group_blocks_into_screens bs w).dropLast) :
    100 < pageWordCount p := by
  have h := foldl_group_fill w bs ⟨[], [], 0⟩ (by simp) (by simp [pageWordCount])
  revert hp
  simp only [group_blocks_into_screens]
  split
  · intro hp
    exact h p (List.dropLast_subset _ hp)
  · intro hp
    have hdc : ∀ (L : List (List Block)) (x : List Block), (L ++ [x]).dropLast = L := by
      intro L x; simp
    rw [hdc] at hp
    exact h p hp

set_option maxRecDepth 8000 in
/-- Witness for `minimum_fill_invariant`: a 101-word block then a 150-word
block at budget 200 produce two pages; the first (non-final) page holds
101 > 100 words. -/
theorem minimum_fill_invariant_w : 100 < pageWordCount [wordBlock 101] :=
  minimum_fill_invariant [wordBlock 101, wordBlock 150] 200 [wordBlock 101] (by decide)

/-! ### C9 — empty and whitespace-only input -/

theorem mem_splitOnNl {c : Char} : ∀ {s l : List Char},
    l ∈ splitOnNl s → c ∈ l → c ∈ s := by
  intro s
  induction s with
  | nil =>
    intro l hl hc
    simp only [splitOnNl, List.mem_singleton] at hl
    subst hl
    simp at hc
  | cons a s ih =>
    intro l hl hc
    simp only [splitOnNl] at hl
    by_cases ha : a = '\n'
    · rw [if_pos ha] at hl
      rcases List.mem_cons.1 hl with rfl | hl'
      · simp at hc
      · exact List.mem_cons_of_mem a (ih hl' hc)
    · rw [if_neg ha] at hl
      rcases hrec : splitOnNl s with _ | ⟨h, t⟩
      · rw [hrec] at hl
        simp only [List.mem_singleton] at hl
        subst hl
        rcases List.mem_cons.1 hc with rfl | hc'
        · exact List.mem_cons_self _ _
        · simp at hc'
      · rw [hrec] at hl
        rcases List.mem_cons.1 hl with rfl | hl'
        · rcases List.mem_cons.1 hc with rfl | hc'
          · exact List.mem_cons_self c s
          · refine List.mem_cons_of_mem a (ih ?_ hc')
            rw [hrec]
            exact List.mem_cons_self h t
        · refine List.mem_cons_of_mem a (ih ?_ hc)
          rw [hrec]
          exact List.mem_cons_of_mem h hl'

theorem strip_eq_nil {l : List Char} (h : ∀ c ∈ l, pySpace c = true) :
    strip l = [] := by
  have h1 : l.dropWhile pySpace = [] := List.dropWhile_eq_nil_iff.2 fun x hx => h x hx
  simp [strip, h1]

theorem segStep_blank (st : SegState) {l : List Char} (h : strip l = []) :
    segStep st l = st := by
  simp [segStep, h]

theorem foldl_segStep_blank : ∀ (ls : List (List Char)) (st : SegState),
    (∀ l ∈ ls, strip l = []) → ls.foldl segStep st = st := by
  intro ls
  induction ls with
  | nil => intro st _; rfl
  | cons l ls ih =>
    intro st h
    rw [List.foldl_cons, segStep_blank st (h l (by simp))]
    exact ih st fun x hx => h x (by simp [hx])

/-- C9: the segmenter applied to the empty string or to any
whitespace-only string returns the empty block list (not an error), and
the grouper applied to an empty block list returns the empty page list. -/
theorem empty_input (s : List Char) (hs : ∀ c ∈ s, pySpace c = true) (w : Int) :
    parse_pdf_to_structured_blocks s = [] ∧ group_blocks_into_screens [] w = [] := by
  refine ⟨?_, rfl⟩
  by_cases h0 : s = []
  · simp [parse_pdf_to_structured_blocks, h0]
  · have hlines : ∀ l ∈ splitlines s, strip l = [] := by
      intro l hl
      apply strip_eq_nil
      intro c hc
      apply hs
      have hl' : l ∈ splitOnNl s := by
        revert hl
        simp only [splitlines]
        rw [if_neg h0]
        split
        · intro hl
          exact List.dropLast_subset _ hl
        · intro hl
          exact hl
      exact mem_splitOnNl hl' hc
    simp only [parse_pdf_to_structured_blocks]
    rw [if_neg h0]
    simp only [segmentLines]
    rw [foldl_segStep_blank _ _ hlines]
    rfl

/-- Witness for `empty_input`: the whitespace-only text `"   \n\n  "` and
the budget 400. -/
theorem empty_input_w :
    parse_pdf_to_structured_blocks "   \n\n  ".toList = [] ∧
      group_blocks_into_screens [] 400 = [] :=
  empty_input "   \n\n  ".toList (by decide) 400

/-! ### C8 — blank lines are pure separators -/

/-- C8: two plain continuation lines separated by any number of blank
(whitespace-only) lines form a single paragraph block joined with one
space; the blank lines neither produce blocks nor terminate the
paragraph. -/
theorem blank_separator_join (a b : List Char) (ws : List (List Char))
    (ha : strip a = a) (ha0 : a ≠ []) (hah : is_header a = false)
    (hab : is_bullet a = false) (had : a.getLast? ≠ some '-')
    (hb : strip b = b) (hb0 : b ≠ []) (hbh : is_header b = false)
    (hbb : is_bullet b = false)
    (hws : ∀ l ∈ ws, strip l = []) :
    segmentLines (a :: ws ++ [b]) = [⟨"p", a ++ ' ' :: b⟩] := by
  have h1 : segStep ⟨[], [], "p"⟩ a = ⟨[], a, "p"⟩ := by
    simp [segStep, ha, ha0, hah, hab]
  have h2 : segStep ⟨[], a, "p"⟩ b = ⟨[], a ++ ' ' :: b, "p"⟩ := by
    simp [segStep, hb, hb0, hbh, hbb, ha0, had]
  simp only [segmentLines, List.cons_append, List.foldl_cons, List.foldl_append, h1]
  rw [foldl_segStep_blank ws _ hws]
  simp only [List.foldl_cons, List.foldl_nil, h2]
  simp

/-- Witness for `blank_separator_join`: the lines `["a", "", "b"]`. -/
theorem blank_separator_join_w :
    segmentLines (['a'] :: [[]] ++ [['b']]) = [⟨"p", ['a'] ++ ' ' :: ['b']⟩] :=
  blank_separator_join ['a'] ['b'] [[]] (by decide) (by decide) (by decide)
    (by decide) (by decide) (by decide) (by decide) (by decide) (by decide)
    (by decide)

/-! ### C3 — token preservation -/

/-- Concatenated token sequence of a block list: the whitespace-delimited
tokens of each block's text, in order. -/
def blockTokens (bs : List Block) : List (List Char) :=
  (bs.map fun b => tokens b.text).flatten

/-- Token sequence carried by a segmenter state: the tokens of the emitted
blocks followed by the tokens of the paragraph accumulator. -/
def stTokens (st : SegState) : List (List Char) :=
  blockTokens st.blocks ++ tokens st.current_text

theorem tokensAux_sep {w : Char} (hw : pySpace w = true) :
    ∀ (a acc b : List Char),
      tokensAux acc (a ++ w :: b) = tokensAux acc a ++ tokens b := by
  intro a
  induction a with
  | nil =>
    intro acc b
    by_cases hacc : acc = [] <;>
      simp [tokensAux, tokens, hw, hacc]
  | cons c a ih =>
    intro acc b
    by_cases hc : pySpace c
    · by_cases hacc : acc = [] <;>
        simp [tokensAux, hc, hacc, ih]
    · simp [tokensAux, hc, ih]

theorem tokens_append_space (a b : List Char) :
    tokens (a ++ ' ' :: b) = tokens a ++ tokens b :=
  tokensAux_sep (by decide) a [] b

theorem blockTokens_append (bs₁ bs₂ : List Block) :
    blockTokens (bs₁ ++ bs₂) = blockTokens bs₁ ++ blockTokens bs₂ := by
  simp [blockTokens]

theorem segStep_tokens (st : SegState) (l : List Char)
    (hst : st.current_text.getLast? ≠ some '-')
    (hl : (strip l).getLast? ≠ some '-') :
    stTokens (segStep st l) = stTokens st ++ tokens (strip l) ∧
      (segStep st l).current_text.getLast? ≠ some '-' := by
  by_cases h0 : strip l = []
  · rw [segStep_blank st h0, h0]
    refine ⟨?_, hst⟩
    simp [tokens, tokensAux]
  · by_cases hhb : (is_header (strip l) || is_bullet (strip l)) = true
    · have hres : ∃ k, segStep st l =
          ⟨(if st.current_text = [] then st.blocks
            else st.blocks ++ [⟨st.current_type, st.current_text⟩]) ++ [⟨k, strip l⟩],
           [], st.current_type⟩ := by
        simp only [segStep]
        rw [if_neg h0, if_pos hhb]
        by_cases hh : is_header (strip l) = true
        · exact ⟨"h", by rw [if_pos hh]⟩
        · exact ⟨"li", by rw [if_neg hh]⟩
      obtain ⟨k, hk⟩ := hres
      rw [hk]
      constructor
      · by_cases hc : st.current_text = [] <;>
          simp [stTokens, blockTokens, hc, tokens, tokensAux]
      · simp
    · by_cases hc : st.current_text = []
      · have hstep : segStep st l = { st with current_text := strip l, current_type := "p" } := by
          simp only [segStep]
          rw [if_neg h0, if_neg hhb, if_pos hc]
        rw [hstep]
        refine ⟨?_, hl⟩
        simp [stTokens, hc, tokens, tokensAux]
      · have hstep : segStep st l
            = { st with current_text := st.current_text ++ ' ' :: strip l } := by
          simp only [segStep]
          rw [if_neg h0, if_neg hhb, if_neg hc, if_neg hst]
        rw [hstep]
        have hgl : (st.current_text ++ ' ' :: strip l).getLast? = (strip l).getLast? := by
          rw [List.getLast?_append_of_ne_nil _ (by simp)]
          obtain ⟨x, m, hm⟩ := List.exists_cons_of_ne_nil h0
          rw [hm, List.getLast?_cons_cons]

        constructor
        · simp only [stTokens]
          rw [tokens_append_space]
          simp [List.append_assoc]
        · show (st.current_text ++ ' ' :: strip l).getLast? ≠ some '-'
          rw [hgl]
          exact hl

theorem foldl_seg_tokens : ∀ (ls : List (List Char)) (st : SegState),
    st.current_text.getLast? ≠ some '-' →
    (∀ l ∈ ls, (strip l).getLast? ≠ some '-') →
    stTokens (ls.foldl segStep st)
        = stTokens st ++ (ls.map fun l => tokens (strip l)).flatten ∧
      (ls.foldl segStep st).current_text.getLast? ≠ some '-' := by
  intro ls
  induction ls with
  | nil => intro st h _; exact ⟨by simp, h⟩
  | cons l ls ih =>
    intro st h hls
    rw [List.foldl_cons]
    obtain ⟨h1, h2⟩ := segStep_tokens st l h (hls l (by simp))
    obtain ⟨h3, h4⟩ := ih (segStep st l) h2 (fun x hx => hls x (by simp [hx]))
    refine ⟨?_, h4⟩
    rw [h3, h1]
    simp

theorem blockTokens_segmentLines (ls : List (List Char)) :
    blockTokens (segmentLines ls) = stTokens (ls.foldl segStep ⟨[], [], "p"⟩) := by
  simp only [segmentLines, stTokens]
  split
  · rename_i hc
    rw [hc]
    simp [tokens, tokensAux]
  · rw [blockTokens_append]
    simp [blockTokens]

/-- C3, counterexample: for the two-line input `"exam-\nple"` the token
sequence of the segmenter's output (`["example"]`) differs from the token
sequence of the non-blank stripped input lines (`["exam-", "ple"]`): the
hyphenation join merges two input tokens into one, so tokens are not
preserved verbatim. -/
theorem token_preservation_cex :
    blockTokens (parse_pdf_to_structured_blocks "exam-\nple".toList) ≠
      ((((splitlines "exam-\nple".toList).map strip).filter fun l => l ≠ []).map
        tokens).flatten := by
  decide

/-- C3, amended: for every raw text in which no (stripped) input line ends
with a hyphen, concatenating the text of every block produced by the
segmenter, in order, and splitting into whitespace-delimited tokens yields
exactly the token sequence of the non-blank stripped input lines — no
token lost, changed or duplicated.  (When a line ends with a hyphen the
hyphenation join merges its last token with the following line's first
token, which is the only exception.) -/
theorem token_preservation (text : List Char)
    (h : ∀ l ∈ splitlines text, (strip l).getLast? ≠ some '-') :
    blockTokens (parse_pdf_to_structured_blocks text)
      = ((((splitlines text).map strip).filter fun l => l ≠ []).map tokens).flatten := by
  have hfil : ∀ (ls : List (List Char)),
      (((ls.map strip).filter fun l => l ≠ []).map tokens).flatten
        = (ls.map fun l => tokens (strip l)).flatten := by
    intro ls
    induction ls with
    | nil => rfl
    | cons l ls ih =>
      rw [List.map_cons, List.map_cons, List.flatten_cons]
      by_cases hc : strip l = []
      · rw [hc, List.filter_cons_of_neg (by decide), ih]
        simp [tokens, tokensAux]
      · rw [List.filter_cons_of_pos (by simpa using hc), List.map_cons,
          List.flatten_cons, ih]
  rw [hfil]
  by_cases h0 : text = []
  · subst h0; rfl
  · simp only [parse_pdf_to_structured_blocks]
    rw [if_neg h0, blockTokens_segmentLines]
    have hf := foldl_seg_tokens (splitlines text) ⟨[], [], "p"⟩ (by simp) h
    rw [hf.1]
    simp [stTokens, blockTokens, tokens, tokensAux]

/-- Witness for `token_preservation`: the hyphen-free text
`"Hello world\nfoo"`. -/
theorem token_preservation_w :
    blockTokens (parse_pdf_to_structured_blocks "Hello world\nfoo".toList)
      = ((((splitlines "Hello world\nfoo".toList).map strip).filter fun l => l ≠ []).map
          tokens).flatten :=
  token_preservation "Hello world\nfoo".toList (by decide)

end EnglishApp
